import Mathlib

/-!
# Verification of the `cv_pro` cyclic-voltammetry data-processing core

This file gives a shallow embedding, in Lean 4, of the core data path of the
`cv_pro` repository: the binary `.bin` decoder (`cv_pro/io/parse_bin.py`),
the segment-reconstruction walk, the E1/2 peak-pair matcher
(`cv_pro/ehalf.py` and `cv_pro/voltammogram.py`), the segment container
(`cv_pro/segment.py`), and the trim operation described by the design
document.

Modelling conventions:
* Python floats are modelled as exact rationals (`ℚ`).  IEEE-754 binary32
  values read from the file are decoded exactly into `ℚ`; the accumulated
  arithmetic of the segment walk is the idealised exact arithmetic the
  design document's rounding policy is meant to enforce.  IEEE infinities
  and NaNs have no rational counterpart, so `decodeF32` maps the exponent
  pattern 255 to `0`; theorems that depend on those fields carry explicit
  finiteness hypotheses restricting them to the faithful domain.
* Python's `round(x, n)` rounds half to even; `pyRound` implements this
  exactly on `ℚ`.  `int(x)` truncates toward zero; `ratTrunc` implements it.
* Fallible Python code (struct.error, TypeError from a missing dataclass
  field, ValueError from `pd.concat` of an empty list) is modelled with
  `Except PyErr`.
-/

set_option maxRecDepth 100000

namespace CvPro

/-- The distinct Python exceptions the decoder can raise:
`struct.error` (short or misaligned buffers), `TypeError`
(`Parameters(**d)` with the `init_sweep_direction` key missing), and
`ValueError` (`pd.concat` of an empty list of segment frames). -/
inductive PyErr where
  | structError
  | typeError
  | valueError
  deriving DecidableEq, Repr

/-- Floor of a rational (`Int.fdiv` is floor division and `q.den > 0`). -/
def ratFloor (q : ℚ) : ℤ :=
  Int.fdiv q.num q.den

/-- Round half to even to the nearest integer, as Python's `round` does
(a tie goes to the even neighbour). -/
def roundHalfEven (q : ℚ) : ℤ :=
  let f := ratFloor q
  let r := q - (f : ℚ)
  if r < 1/2 then f
  else if (1:ℚ)/2 < r then f + 1
  else if f % 2 = 0 then f else f + 1

/-- Python's `round(x, n)` for `n` decimal places (exact, on rationals). -/
def pyRound (q : ℚ) (n : ℕ) : ℚ :=
  (roundHalfEven (q * 10 ^ n) : ℚ) / 10 ^ n

/-- Python's `int(x)` on a float: truncation toward zero (`Int.tdiv` is
truncating division and `q.den > 0`). -/
def ratTrunc (q : ℚ) : ℤ :=
  Int.tdiv q.num q.den

/-- Little-endian reassembly of a 4-byte group, as `struct.unpack('<f', ...)`
sees it: byte 0 is least significant. -/
def leWord : List ℕ → ℕ
  | [b0, b1, b2, b3] => b0 + 2 ^ 8 * b1 + 2 ^ 16 * b2 + 2 ^ 24 * b3
  | _ => 0

/-- Exact rational value of an IEEE-754 binary32 bit pattern `w < 2^32`.
Normal values are `±(2^23 + m)·2^(e-150)`, subnormals `±m·2^(-149)`
(written with the common denominator `2^150`).  The exponent pattern 255
(infinities and NaNs) has no rational value and is mapped to `0`;
theorems that touch such fields carry finiteness hypotheses. -/
def decodeF32 (w : ℕ) : ℚ :=
  let s : ℕ := w / 2 ^ 31 % 2
  let e : ℕ := w / 2 ^ 23 % 2 ^ 8
  let m : ℕ := w % 2 ^ 23
  let sgn : ℚ := if s = 1 then -1 else 1
  if e = 255 then 0
  else if e = 0 then sgn * (2 * (m : ℚ)) / 2 ^ 150
  else sgn * ((2 ^ 23 + (m : ℚ)) * 2 ^ e) / 2 ^ 150

/-- Python slice `l[a : a+4]` followed by `struct.unpack('<f', ·)`. -/
def extract4 (l : List ℕ) (a : ℕ) : List ℕ :=
  (l.drop a).take 4

/-- The float stored at byte offset `a` of the buffer. -/
def fieldF32 (l : List ℕ) (a : ℕ) : ℚ :=
  decodeF32 (leWord (extract4 l a))

/-- `cv_pro/io/parse_bin.py`, dataclass `Parameters`. -/
structure Parameters where
  init_E : ℚ
  final_E : ℚ
  high_E : ℚ
  low_E : ℚ
  scan_rate : ℚ
  init_sweep_direction : ℤ × String
  num_segments : ℤ
  sample_interval : ℚ
  sensitivity : ℚ
  quiet_time : ℚ
  deriving DecidableEq, Repr

/-- `cv_pro/io/parse_bin.py`, `_get_parameters`.  Header scalars are
little-endian binary32 values at fixed offsets 845..893.  A buffer shorter
than 893 bytes makes one of the slices shorter than 4 bytes and
`struct.unpack` raises `struct.error`; a polarity flag that truncates to
neither `1` nor `0` leaves the `init_sweep_direction` key unset and
`Parameters(**parameters)` raises `TypeError`. -/
def getParameters (b : List ℕ) : Except PyErr Parameters :=
  if b.length < 893 then .error .structError
  else
    if ratTrunc (fieldF32 b 869) = 1 then
      .ok {
        init_E := pyRound (fieldF32 b 845) 3
        final_E := pyRound (fieldF32 b 849) 3
        high_E := pyRound (fieldF32 b 853) 3
        low_E := pyRound (fieldF32 b 857) 3
        scan_rate := pyRound (fieldF32 b 861) 5
        init_sweep_direction := (1, "Positive")
        num_segments := ratTrunc (fieldF32 b 873)
        sample_interval := pyRound (fieldF32 b 877) 5
        sensitivity := fieldF32 b 885
        quiet_time := fieldF32 b 889 }
    else if ratTrunc (fieldF32 b 869) = 0 then
      .ok {
        init_E := pyRound (fieldF32 b 845) 3
        final_E := pyRound (fieldF32 b 849) 3
        high_E := pyRound (fieldF32 b 853) 3
        low_E := pyRound (fieldF32 b 857) 3
        scan_rate := pyRound (fieldF32 b 861) 5
        init_sweep_direction := (-1, "Negative")
        num_segments := ratTrunc (fieldF32 b 873)
        sample_interval := pyRound (fieldF32 b 877) 5
        sensitivity := fieldF32 b 885
        quiet_time := fieldF32 b 889 }
    else .error .typeError

/-- Decode consecutive 4-byte groups, as `struct.iter_unpack('<f', ·)`
yields them (the length check is done by the caller `unpackData`). -/
def unpackF32s : List ℕ → List ℚ
  | b0 :: b1 :: b2 :: b3 :: rest => decodeF32 (leWord [b0, b1, b2, b3]) :: unpackF32s rest
  | _ => []

/-- `cv_pro/io/parse_bin.py`, `_unpack_data`.  The CV sample region starts
at byte 1445; `struct.iter_unpack` raises `struct.error` when the region's
length is not a multiple of 4. -/
def unpackData (b : List ℕ) : Except PyErr (List ℚ) :=
  let cv_data := b.drop 1445
  if cv_data.length % 4 = 0 then .ok (unpackF32s cv_data) else .error .structError

/-- Loop state of `_build_segments`: the running potential `v`, the running
sweep direction, the synthesized potentials so far and the segment
boundary indices so far. -/
structure WalkState where
  v : ℚ
  dir : ℤ
  pot : List ℚ
  idx : List ℕ
  deriving Repr

/-- One iteration of the loop body of `_build_segments`: record `round(v, 3)`,
advance `v` by `round(sample_interval * sweep_direction, 3)`, and when the
advanced `v` is within `tol = 1e-4` of `high_E` or `low_E`, flip the sweep
direction and record a boundary at the next sample index. -/
def segStep (p : Parameters) (s : WalkState) : WalkState :=
  let pot := s.pot ++ [pyRound s.v 3]
  let v := s.v + pyRound (p.sample_interval * (s.dir : ℚ)) 3
  if |v - p.high_E| < 1/10000 ∨ |v - p.low_E| < 1/10000 then
    { v := v, dir := -s.dir, pot := pot, idx := s.idx ++ [pot.length] }
  else
    { v := v, dir := s.dir, pot := pot, idx := s.idx }

/-- Run `n` iterations of the `_build_segments` loop. -/
def walk (p : Parameters) : ℕ → WalkState → WalkState
  | 0, s => s
  | n + 1, s => walk p n (segStep p s)

/-- Number of iterations of `for i in range(1445, nBytes, 4)`. -/
def iterCount (nBytes : ℕ) : ℕ :=
  (nBytes - 1445 + 3) / 4

/-- `cv_pro/io/parse_bin.py`, `_build_segments`: synthesize the potential
for each 4-byte sample record and collect the segment boundary indices
(starting from `[0]`). -/
def buildSegments (nBytes : ℕ) (p : Parameters) : List ℚ × List ℕ :=
  let s := walk p (iterCount nBytes)
    { v := p.init_E, dir := p.init_sweep_direction.1, pot := [], idx := [0] }
  (s.pot, s.idx)

/-- Python slice `l[a : b]` (for `a ≤ b`; a hollow slice is empty, exactly
as `(l.drop a).take (b - a)` is). -/
def pySlice (l : List α) (a b : ℕ) : List α :=
  (l.drop a).take (b - a)

/-- The contiguous blocks of `l` between consecutive entries of `idx`. -/
def slicesOf (l : List α) : List ℕ → List (List α)
  | a :: b :: rest => pySlice l a b :: slicesOf l (b :: rest)
  | _ => []

/-- `cv_pro/io/parse_bin.py`, `_build_voltammogram`: force a final boundary
at the end of the stream if one is not already there, cut the potential and
current streams into per-segment blocks, and concatenate the per-segment
frames.  `pd.concat` raises `ValueError` when handed an empty list of
frames (which happens exactly when the stream has no samples). -/
def buildVoltammogram (potential current : List ℚ) (segment_indices : List ℕ) :
    Except PyErr (List (List ℚ × List ℚ)) :=
  let idx := if segment_indices.getLast? = some potential.length then segment_indices
             else segment_indices ++ [potential.length]
  let segs := (slicesOf potential idx).zip (slicesOf current idx)
  if segs = [] then .error .valueError else .ok segs

/-- `cv_pro/io/parse_bin.py`, `parse_bin_file` (after the file bytes have
been read): decode parameters, unpack the current samples, synthesize the
potentials and cut the stream into segments. -/
def parseBinFile (b : List ℕ) : Except PyErr (List (List ℚ × List ℚ) × Parameters) := do
  let parameters ← getParameters b
  let current ← unpackData b
  let (potential, segment_indices) := buildSegments b.length parameters
  let voltammogram ← buildVoltammogram potential current segment_indices
  return (voltammogram, parameters)

/-- `cv_pro/ehalf.py`, `_is_valid_peak_pair`: a pair is a valid reversible
couple when the currents and potentials are strictly ordered in opposite
senses. -/
def isValidPeakPair (pot_a curr_a pot_b curr_b : ℚ) : Prop :=
  (curr_a > curr_b ∧ pot_a < pot_b) ∨ (curr_a < curr_b ∧ pot_a > pot_b)

instance (pot_a curr_a pot_b curr_b : ℚ) :
    Decidable (isValidPeakPair pot_a curr_a pot_b curr_b) := by
  unfold isValidPeakPair; infer_instance

/-- `cv_pro/ehalf.py`, `_calculate_e_half`: the midpoint of the two peak
potentials, rounded to 2 decimal places. -/
def calculateEHalf (potential_a potential_b : ℚ) : ℚ :=
  pyRound (1/2 * (potential_a + potential_b)) 2

/-- Loop body of `_find_matching_peaks` for one `(a, b)` candidate pair:
skip when the separation exceeds the limit, validate the ordering, and on
acceptance append `E1/2` and the (full-precision) separation. -/
def fmpInner (peak_sep_limit : ℚ) (a : ℚ × ℚ) (acc : List ℚ × List ℚ)
    (b : ℚ × ℚ) : List ℚ × List ℚ :=
  let separation := |a.1 - b.1|
  if separation ≤ peak_sep_limit then
    if isValidPeakPair a.1 a.2 b.1 b.2 then
      (acc.1 ++ [calculateEHalf a.1 b.1], acc.2 ++ [separation])
    else acc
  else acc

/-- `cv_pro/ehalf.py`, `_find_matching_peaks`: the nested loop over every
peak `a` of the current segment and every peak `b` of the next segment. -/
def findMatchingPeaks (current_peaks next_peaks : List (ℚ × ℚ))
    (peak_sep_limit : ℚ) : List ℚ × List ℚ :=
  current_peaks.foldl (fun acc a =>
    next_peaks.foldl (fmpInner peak_sep_limit a) acc) ([], [])

/-- The acceptance condition of the claim, verbatim: the separation is
within the limit (inclusive) and the currents/potentials are strictly
ordered in opposite senses. -/
def pairAccepted (a b : ℚ × ℚ) (peak_sep_limit : ℚ) : Prop :=
  |a.1 - b.1| ≤ peak_sep_limit ∧ isValidPeakPair a.1 a.2 b.1 b.2

instance (a b : ℚ × ℚ) (L : ℚ) : Decidable (pairAccepted a b L) := by
  unfold pairAccepted; infer_instance

/-- All accepted pairs, in discovery order: ascending peak index of the
first segment, then ascending peak index of the second. -/
def acceptedPairs (current_peaks next_peaks : List (ℚ × ℚ))
    (peak_sep_limit : ℚ) : List ((ℚ × ℚ) × (ℚ × ℚ)) :=
  current_peaks.flatMap (fun a =>
    (next_peaks.filter (fun b => decide (pairAccepted a b peak_sep_limit))).map
      (fun b => (a, b)))

/-- Row lookup `(segment.index[i], segment.iloc[i])` of a segment stored as
a list of (potential, current) rows.  Peak indices delivered by
`scipy.signal.find_peaks` are always in range; out-of-range lookups give a
junk default. -/
def rowAt (segment : List (ℚ × ℚ)) (i : ℕ) : ℚ × ℚ :=
  segment.getD i (0, 0)

/-- Loop body of `find_Ehalfs` (`cv_pro/voltammogram.py`) for one
candidate pair of reference-shifted peak coordinates: the same skip and
ordering checks as `_is_valid_peak_pair`, with
`E1/2 = round(0.5*(ax - bx) + bx, 2)`. -/
def veInner (peak_sep_limit : ℚ) (a : ℚ × ℚ) (acc : List ℚ × List ℚ)
    (b : ℚ × ℚ) : List ℚ × List ℚ :=
  if |a.1 - b.1| ≤ peak_sep_limit then
    if isValidPeakPair a.1 a.2 b.1 b.2 then
      (acc.1 ++ [pyRound (1/2 * (a.1 - b.1) + b.1) 2], acc.2 ++ [|a.1 - b.1|])
    else acc
  else acc

/-- `cv_pro/voltammogram.py`, `find_Ehalfs`, inner double loop for one pair
of consecutive segments: each peak index is turned into its
reference-shifted `(potential, current)` coordinates
(`segment.index[peak] - reference`, `segment.iloc[peak]`). -/
def voltSegmentEhalfs (segment next_segment : List (ℚ × ℚ))
    (peaks_a peaks_b : List ℕ) (reference peak_sep_limit : ℚ) :
    List ℚ × List ℚ :=
  peaks_a.foldl (fun acc peak_a =>
    peaks_b.foldl (fun acc peak_b =>
      veInner peak_sep_limit
        ((rowAt segment peak_a).1 - reference, (rowAt segment peak_a).2)
        acc
        ((rowAt next_segment peak_b).1 - reference, (rowAt next_segment peak_b).2))
      acc) ([], [])

/-- `_extract_peak_coordinates` with the reference shift of `find_Ehalfs`:
the (potential, current) coordinates of the given peak indices. -/
def peakCoords (segment : List (ℚ × ℚ)) (peak_indices : List ℕ)
    (reference : ℚ) : List (ℚ × ℚ) :=
  peak_indices.map (fun i => ((rowAt segment i).1 - reference, (rowAt segment i).2))

/-- `cv_pro/voltammogram.py`, `find_Ehalfs`, outer loop: one
(`e_halfs`, `peak_sep`) pair per consecutive segment pair. -/
def voltFindEhalfs (segments : List (List (ℚ × ℚ))) (peaks : List (List ℕ))
    (reference peak_sep_limit : ℚ) : List (List ℚ) × List (List ℚ) :=
  ((List.range (segments.length - 1)).map (fun i =>
    voltSegmentEhalfs (segments.getD i []) (segments.getD (i + 1) [])
      (peaks.getD i []) (peaks.getD (i + 1) []) reference peak_sep_limit)).unzip

/-- Python's stable `list.sort(reverse=True)`: descending order. -/
def pySortDesc (l : List ℚ) : List ℚ :=
  l.insertionSort (· ≥ ·)

/-- `cv_pro/voltammogram.py`, `_print_E_halfs`: the display helper sorts
each `e_half` list **in place** (`e_half.sort(reverse=True)`) while only
reading `peak_sep`, so after it runs the stored `E_halfs` lists are sorted
descending and the `peak_separations` lists keep their discovery order. -/
def printEHalfsEffect (E_halfs : List (List ℚ)) : List (List ℚ) :=
  E_halfs.map pySortDesc

/-- Net effect of `process_data` on `(E_halfs, peak_separations)`:
`find_Ehalfs` builds them, then `_print_E_halfs` sorts each `E_halfs`
entry in place. -/
def processEhalfs (segments : List (List (ℚ × ℚ))) (peaks : List (List ℕ))
    (reference peak_sep_limit : ℚ) : List (List ℚ) × List (List ℚ) :=
  let r := voltFindEhalfs segments peaks reference peak_sep_limit
  (printEHalfsEffect r.1, r.2)

/-- `cv_pro/segment.py`, class `Segment`, as a value-level record: `raw`
and `processed` are indexed series of (potential, current) rows; `raw` and
`processed` start as two copies of `data` (`data.copy()`). -/
structure Segment where
  index : ℤ
  raw : List (ℚ × ℚ)
  processed : List (ℚ × ℚ)
  peaks : List ℕ
  ehalfs : List ℚ
  peak_separations : List ℚ
  deriving DecidableEq, Repr

/-- `Segment.__init__` with explicit (fresh) list arguments. -/
def mkSegment (index : ℤ) (data : List (ℚ × ℚ)) : Segment :=
  { index := index, raw := data, processed := data,
    peaks := [], ehalfs := [], peak_separations := [] }

/-- `cv_pro/segment.py`, `Segment.apply_correction`: shift every potential
of `processed` by `-correction` and round to 3 decimals
(`self.processed.index = (self.processed.index - correction).round(3)`);
the subsequent `rename` only changes the axis label.  `raw` is untouched. -/
def Segment.applyCorrection (s : Segment) (correction : ℚ) : Segment :=
  { s with processed := s.processed.map (fun r => (pyRound (r.1 - correction) 3, r.2)) }

/-- Trim error taxonomy of the design document. -/
inductive TrimErr where
  | invalidRange
  deriving DecidableEq, Repr

/-- Modelled from the spec: the `trim(start, end)` operation of the newest
`Voltammogram` entity.  Its callers survive in the sources
(`commands/process.py` passes a two-integer `--trim START END`;
`utils/_rich.py` renders `voltammogram.trimmed_segments`) but the class
implementing it does not, so the definition follows §4.3 of the design
document: `start` is clamped to a minimum of 1; `end == -1` (the
to-the-end sentinel) or `end ≥ total_segments` is clamped to
`total_segments`; after clamping, `start > end` is an `InvalidRangeError`;
otherwise the 1-based inclusive subrange of the segment list is returned,
sharing the segment objects. -/
def trim (segments : List α) (start end_ : ℤ) : Except TrimErr (List α) :=
  let total : ℤ := segments.length
  let start' := max start 1
  let end' := if end_ = -1 ∨ total ≤ end_ then total else end_
  if end' < start' then .error .invalidRange
  else .ok (pySlice segments (start' - 1).toNat end'.toNat)

/-- A store of Python list objects (here: lists of floats), addressed by
allocation index.  Mutating a cell is visible through every reference to
it. -/
structure PyListStore where
  cells : List (List ℚ)
  deriving DecidableEq, Repr

/-- Dereference a list object. -/
def PyListStore.read (st : PyListStore) (i : ℕ) : List ℚ :=
  st.cells.getD i []

/-- `obj.append(x)` on the list object `i`. -/
def PyListStore.push (st : PyListStore) (i : ℕ) (x : ℚ) : PyListStore :=
  ⟨st.cells.set i (st.read i ++ [x])⟩

/-- The `ehalfs` and `peak_separations` fields of a constructed `Segment`
object, as references into the store.  (`raw`/`processed` are copies of
the argument; `peaks` behaves exactly like the two modelled fields.) -/
structure SegmentObj where
  index : ℤ
  raw : List (ℚ × ℚ)
  processed : List (ℚ × ℚ)
  ehalfs : ℕ
  peak_separations : ℕ
  deriving DecidableEq, Repr

/-- Python evaluates default-argument expressions once, when the `def` is
executed: `Segment.__init__(self, index, data, peaks=[], ehalfs=[],
peak_separations=[])` allocates its default lists at class-definition
time.  This is the store right after `cv_pro/segment.py` is imported:
cell 0 is the shared `ehalfs` default, cell 1 the shared
`peak_separations` default. -/
def segmentDefaultsStore : PyListStore :=
  ⟨[[], []]⟩

/-- `Segment(index, data)` with the list arguments omitted: `raw` and
`processed` get fresh copies of `data`, while `ehalfs` and
`peak_separations` are bound to the default list objects created at
definition time (cells 0 and 1) — not to fresh lists. -/
def mkSegmentObjDefault (index : ℤ) (data : List (ℚ × ℚ)) : SegmentObj :=
  { index := index, raw := data, processed := data,
    ehalfs := 0, peak_separations := 1 }

/-! ## Lemmas about the peak matcher -/

lemma fmpInner_foldl (L : ℚ) (a : ℚ × ℚ) (B : List (ℚ × ℚ)) :
    ∀ acc : List ℚ × List ℚ,
      B.foldl (fmpInner L a) acc =
        (acc.1 ++ ((B.filter (fun b => decide (pairAccepted a b L))).map
            (fun b => calculateEHalf a.1 b.1)),
         acc.2 ++ ((B.filter (fun b => decide (pairAccepted a b L))).map
            (fun b => |a.1 - b.1|))) := by
  induction B with
  | nil => intro acc; simp
  | cons b B ih =>
    intro acc
    by_cases h1 : |a.1 - b.1| ≤ L
    · by_cases h2 : isValidPeakPair a.1 a.2 b.1 b.2
      · have hacc : pairAccepted a b L := ⟨h1, h2⟩
        simp [List.foldl_cons, ih, fmpInner, h1, h2, hacc, List.filter_cons]
      · have hacc : ¬ pairAccepted a b L := fun h => h2 h.2
        simp [List.foldl_cons, ih, fmpInner, h1, h2, hacc, List.filter_cons]
    · have hacc : ¬ pairAccepted a b L := fun h => h1 h.1
      simp [List.foldl_cons, ih, fmpInner, h1, hacc, List.filter_cons]

lemma findMatchingPeaks_foldl (L : ℚ) (B : List (ℚ × ℚ)) (A : List (ℚ × ℚ)) :
    ∀ acc : List ℚ × List ℚ,
      A.foldl (fun acc a => B.foldl (fmpInner L a) acc) acc =
        (acc.1 ++ ((acceptedPairs A B L).map (fun p => calculateEHalf p.1.1 p.2.1)),
         acc.2 ++ ((acceptedPairs A B L).map (fun p => |p.1.1 - p.2.1|))) := by
  induction A with
  | nil => intro acc; simp [acceptedPairs]
  | cons a A ih =>
    intro acc
    rw [List.foldl_cons]
    show A.foldl _ (B.foldl (fmpInner L a) acc) = _
    rw [fmpInner_foldl, ih]
    simp [acceptedPairs, List.map_append, List.map_map, List.append_assoc]

/-- C2: For every consecutive-segment peak pair crossing, a pair is
accepted exactly when its separation is within `peak_sep_limit`
(inclusively) and currents and potentials are strictly ordered in opposite
senses (equal currents or potentials reject the pair); accepted pairs
produce `E1/2 = round(0.5*(pot_a + pot_b), 2)` in `ehalfs` and the
full-precision separation in `peak_separations`, in discovery order. -/
theorem matcher_accepts_exactly_valid_pairs (A B : List (ℚ × ℚ)) (L : ℚ) :
    findMatchingPeaks A B L =
      ((acceptedPairs A B L).map (fun p => calculateEHalf p.1.1 p.2.1),
       (acceptedPairs A B L).map (fun p => |p.1.1 - p.2.1|)) := by
  simpa using findMatchingPeaks_foldl L B A ([], [])

/-! ## Lemmas about the segment walk and the partition into segments -/

/-- Invariant of the `_build_segments` loop state: the boundary list is
nonempty, starts with 0, is nondecreasing, and all of its entries are
valid positions of the potential stream built so far. -/
def WalkInv (s : WalkState) : Prop :=
  s.idx ≠ [] ∧ s.idx.head? = some 0 ∧ s.idx.Chain' (· ≤ ·) ∧
    ∀ x ∈ s.idx, x ≤ s.pot.length

lemma segStep_pot (p : Parameters) (s : WalkState) :
    (segStep p s).pot = s.pot ++ [pyRound s.v 3] := by
  simp only [segStep]
  split <;> rfl

lemma segStep_inv (p : Parameters) (s : WalkState) (h : WalkInv s) :
    WalkInv (segStep p s) := by
  obtain ⟨hne, hhead, hchain, hbound⟩ := h
  simp only [segStep]
  split
  · refine ⟨by simp, ?_, ?_, ?_⟩
    · simpa [List.head?_append_of_ne_nil _ hne] using hhead
    · rw [List.chain'_append]
      refine ⟨hchain, List.chain'_singleton _, ?_⟩
      intro x hx y hy
      simp only [List.head?_cons, Option.mem_def, Option.some.injEq] at hy
      subst hy
      have := hbound x (List.mem_of_mem_getLast? hx)
      simp only [List.length_append, List.length_cons, List.length_nil]
      omega
    · intro x hx
      rcases List.mem_append.mp hx with hx | hx
      · have := hbound x hx
        simp only [List.length_append, List.length_cons, List.length_nil]
        omega
      · simp only [List.mem_singleton] at hx
        simp [hx]
  · refine ⟨hne, hhead, hchain, ?_⟩
    intro x hx
    have := hbound x hx
    simp only [List.length_append, List.length_cons, List.length_nil]
    omega

lemma walk_inv (p : Parameters) (n : ℕ) :
    ∀ s : WalkState, WalkInv s → WalkInv (walk p n s) := by
  induction n with
  | zero => intro s h; exact h
  | succ n ih => intro s h; exact ih _ (segStep_inv p s h)

lemma walk_pot_length (p : Parameters) (n : ℕ) :
    ∀ s : WalkState, (walk p n s).pot.length = s.pot.length + n := by
  induction n with
  | zero => intro s; rfl
  | succ n ih =>
    intro s
    rw [walk, ih, segStep_pot]
    simp
    omega

lemma walk_pot_head (p : Parameters) (n : ℕ) :
    ∀ s : WalkState, s.pot ≠ [] → (walk p n s).pot.head? = s.pot.head? := by
  induction n with
  | zero => intro s _; rfl
  | succ n ih =>
    intro s hs
    rw [walk, ih _ (by simp [segStep_pot, hs]), segStep_pot,
      List.head?_append_of_ne_nil _ hs]

lemma slicesOf_length (l : List α) : ∀ idx : List ℕ,
    (slicesOf l idx).length = idx.length - 1 := by
  intro idx
  induction idx with
  | nil => rfl
  | cons a rest ih =>
    cases rest with
    | nil => rfl
    | cons b rest' => simpa [slicesOf] using ih

lemma flatten_slicesOf (l : List α) : ∀ (rest : List ℕ) (a : ℕ),
    (a :: rest).Chain' (· ≤ ·) → (a :: rest).getLast? = some l.length →
    (slicesOf l (a :: rest)).flatten = l.drop a := by
  intro rest
  induction rest with
  | nil =>
    intro a _ hlast
    simp only [List.getLast?_singleton, Option.some.injEq] at hlast
    simp [slicesOf, hlast, List.drop_length]
  | cons b rest' ih =>
    intro a hchain hlast
    have hab : a ≤ b := (List.chain'_cons.mp hchain).1
    have hchain' : (b :: rest').Chain' (· ≤ ·) := (List.chain'_cons.mp hchain).2
    have hlast' : (b :: rest').getLast? = some l.length := by
      rwa [List.getLast?_cons_cons] at hlast
    rw [slicesOf, List.flatten_cons, ih b hchain' hlast']
    unfold pySlice
    have hdrop : l.drop b = (l.drop a).drop (b - a) := by
      rw [List.drop_drop]
      congr 1
      omega
    rw [hdrop, List.take_append_drop]

lemma partition_stream_aux (p : Parameters) (cur : List ℚ) (nBytes : ℕ)
    (hn : iterCount nBytes = cur.length) (hcur : cur ≠ []) :
    ∃ segs, buildVoltammogram (buildSegments nBytes p).1 cur (buildSegments nBytes p).2 = .ok segs ∧
      (segs.map Prod.fst).flatten = (buildSegments nBytes p).1 ∧
      (segs.map Prod.snd).flatten = cur ∧
      (buildSegments nBytes p).1.length = cur.length ∧
      (buildSegments nBytes p).1.head? = some (pyRound p.init_E 3) := by
  classical
  set s0 : WalkState :=
    { v := p.init_E, dir := p.init_sweep_direction.1, pot := [], idx := [0] } with hs0
  have hinv0 : WalkInv s0 := by
    refine ⟨by simp [hs0], by simp [hs0], by simp [hs0], by simp [hs0]⟩
  set w := walk p (iterCount nBytes) s0 with hw
  have hinv : WalkInv w := walk_inv p _ _ hinv0
  obtain ⟨hne, hhead, hchain, hbound⟩ := hinv
  have hpotlen : w.pot.length = cur.length := by
    rw [hw, walk_pot_length, hn]
    simp
  have hbs : buildSegments nBytes p = (w.pot, w.idx) := by
    rw [buildSegments]
  have hcurlen : 1 ≤ cur.length := by
    cases cur with
    | nil => exact absurd rfl hcur
    | cons _ _ => simp
  -- the boundary list used for slicing
  set idx' := if w.idx.getLast? = some w.pot.length then w.idx
              else w.idx ++ [w.pot.length] with hidx'
  have hlast' : idx'.getLast? = some w.pot.length := by
    rw [hidx']
    split
    · assumption
    · simp
  have hhead' : idx'.head? = some 0 := by
    rw [hidx']
    split
    · exact hhead
    · rwa [List.head?_append_of_ne_nil _ hne]
  have hchain' : idx'.Chain' (· ≤ ·) := by
    rw [hidx']
    split
    · exact hchain
    · rw [List.chain'_append]
      refine ⟨hchain, List.chain'_singleton _, ?_⟩
      intro x hx y hy
      simp only [List.head?_cons, Option.mem_def, Option.some.injEq] at hy
      subst hy
      exact hbound x (List.mem_of_mem_getLast? hx)
  have hlen' : 2 ≤ idx'.length := by
    rw [hidx']
    split
    · rename_i hsame
      match hidxeq : w.idx, hne with
      | [x], _ =>
        rw [hidxeq] at hhead hsame
        simp only [List.head?_cons, Option.some.injEq] at hhead
        simp only [List.getLast?_singleton, Option.some.injEq] at hsame
        omega
      | x :: y :: rest, _ => simp
    · match w.idx, hne with
      | x :: rest, _ => simp
  obtain ⟨rest', hrest'⟩ : ∃ rest', idx' = 0 :: rest' := by
    match hidxeq : idx', hhead' with
    | x :: rest, h =>
      simp only [List.head?_cons, Option.some.injEq] at h
      exact ⟨rest, by rw [h]⟩
  have hflat_pot : (slicesOf w.pot idx').flatten = w.pot := by
    rw [hrest'] at hchain' hlast' ⊢
    simpa using flatten_slicesOf w.pot rest' 0 hchain' hlast'
  have hflat_cur : (slicesOf cur idx').flatten = cur := by
    rw [hrest'] at hchain' hlast' ⊢
    have hlast'' : (0 :: rest').getLast? = some cur.length := by
      rwa [hpotlen] at hlast'
    simpa using flatten_slicesOf cur rest' 0 hchain' hlast''
  have hslices_len : (slicesOf w.pot idx').length = (slicesOf cur idx').length := by
    rw [slicesOf_length, slicesOf_length]
  have hsegs_ne : (slicesOf w.pot idx').zip (slicesOf cur idx') ≠ [] := by
    have h1 : 1 ≤ (slicesOf w.pot idx').length := by
      rw [slicesOf_length]; omega
    intro hcontra
    have := congrArg List.length hcontra
    rw [List.length_zip, slicesOf_length, slicesOf_length] at this
    simp at this
    omega
  refine ⟨(slicesOf w.pot idx').zip (slicesOf cur idx'), ?_, ?_, ?_, ?_, ?_⟩
  · rw [hbs, buildVoltammogram]
    simp only [← hidx']
    rw [if_neg hsegs_ne]
  · rw [hbs, List.map_fst_zip _ _ (le_of_eq hslices_len)]
    exact hflat_pot
  · rw [List.map_snd_zip _ _ (ge_of_eq hslices_len)]
    exact hflat_cur
  · rw [hbs]; exact hpotlen
  · rw [hbs]
    have : (iterCount nBytes) = (cur.length - 1) + 1 := by omega
    rw [hw, this, walk]
    have hstep : (segStep p s0).pot = [pyRound p.init_E 3] := by
      rw [segStep_pot, hs0]
      rfl
    rw [walk_pot_head p _ _ (by rw [hstep]; simp), hstep]
    rfl

/-- C1: Segment reconstruction partitions the sample stream exactly: for
every parameter set and non-empty current stream, the walk starts at
`init_E` (the first synthesized potential is `round(init_E, 3)`), every
sample receives a potential, segment assembly succeeds, and concatenating
the segments' potential (resp. current) blocks in segment order
reproduces the synthesized potential stream (resp. the original current
stream) with no sample lost or duplicated. -/
theorem segments_partition_stream (p : Parameters) (cur : List ℚ) (nBytes : ℕ)
    (hn : iterCount nBytes = cur.length) (hcur : cur ≠ []) :
    ∃ segs, buildVoltammogram (buildSegments nBytes p).1 cur (buildSegments nBytes p).2 = .ok segs ∧
      (segs.map Prod.fst).flatten = (buildSegments nBytes p).1 ∧
      (segs.map Prod.snd).flatten = cur ∧
      (buildSegments nBytes p).1.length = cur.length ∧
      (buildSegments nBytes p).1.head? = some (pyRound p.init_E 3) :=
  partition_stream_aux p cur nBytes hn hcur

/-! ## A synthetic buffer builder and the decode round-trip -/

/-- A finite IEEE-754 binary32 value, given by its sign bit, biased
exponent (`< 255`, excluding infinities and NaNs) and mantissa field. -/
structure F32 where
  sgn : Bool
  ex : ℕ
  mant : ℕ
  hex : ex < 255
  hmant : mant < 2 ^ 23

/-- The 32-bit word packing of an `F32`. -/
def F32.word (f : F32) : ℕ :=
  (cond f.sgn 1 0) * 2 ^ 31 + f.ex * 2 ^ 23 + f.mant

/-- The four little-endian bytes of an `F32`, as they sit in the file. -/
def F32.enc (f : F32) : List ℕ :=
  [f.word % 2 ^ 8, f.word / 2 ^ 8 % 2 ^ 8, f.word / 2 ^ 16 % 2 ^ 8, f.word / 2 ^ 24 % 2 ^ 8]

/-- The real (rational) value an `F32` denotes: `±(2^23+m)·2^(e-150)` for
normal exponents, `±m·2^(-149)` for the subnormal exponent 0. -/
def F32.val (f : F32) : ℚ :=
  (if f.sgn then -1 else 1) *
    (if f.ex = 0 then (2 * (f.mant : ℚ)) / 2 ^ 150
     else ((2 ^ 23 + (f.mant : ℚ)) * 2 ^ f.ex) / 2 ^ 150)

lemma F32.enc_length (f : F32) : f.enc.length = 4 := rfl

lemma F32.word_lt (f : F32) : f.word < 2 ^ 32 := by
  have h1 := f.hex
  have h2 := f.hmant
  unfold F32.word
  cases f.sgn <;> simp only [cond_true, cond_false] <;> omega

lemma leWord_enc (f : F32) : leWord f.enc = f.word := by
  have := f.word_lt
  simp only [F32.enc, leWord]
  omega

/-- Decoding the packed bytes of a finite binary32 recovers its value. -/
lemma decodeF32_enc (f : F32) : decodeF32 (leWord f.enc) = f.val := by
  rw [leWord_enc]
  have h1 := f.hex
  have h2 := f.hmant
  have hs : f.word / 2 ^ 31 % 2 = cond f.sgn 1 0 := by
    unfold F32.word; cases f.sgn <;> simp only [cond_true, cond_false] <;> omega
  have he : f.word / 2 ^ 23 % 2 ^ 8 = f.ex := by
    unfold F32.word; cases f.sgn <;> simp only [cond_true, cond_false] <;> omega
  have hm : f.word % 2 ^ 23 = f.mant := by
    unfold F32.word; cases f.sgn <;> simp only [cond_true, cond_false] <;> omega
  unfold decodeF32 F32.val
  simp only [hs, he, hm]
  have hne : f.ex ≠ 255 := by omega
  rw [if_neg hne]
  by_cases h0 : f.ex = 0 <;> cases f.sgn <;> simp [h0] <;> ring

/-- Spec §8's synthetic byte buffer: an arbitrary 845-byte preamble, the
twelve header words at offsets 845..893 (two of them the unknown/unused
4-byte regions `u1` at 865 and `u2` at 881), an arbitrary 552-byte gap up
to the sample region at 1445, then the 4-byte sample records. -/
def mkBinBuffer (pad u1 u2 pad2 : List ℕ)
    (init finalE high low rate polarity nseg interval sens quiet : F32)
    (samples : List F32) : List ℕ :=
  pad ++ (init.enc ++ (finalE.enc ++ (high.enc ++ (low.enc ++ (rate.enc ++
    (u1 ++ (polarity.enc ++ (nseg.enc ++ (interval.enc ++ (u2 ++ (sens.enc ++
      (quiet.enc ++ (pad2 ++ samples.flatMap F32.enc)))))))))))))

lemma flatMap_enc_length (samples : List F32) :
    (samples.flatMap F32.enc).length = 4 * samples.length := by
  induction samples with
  | nil => rfl
  | cons f fs ih =>
    rw [List.flatMap_cons, List.length_append, ih, F32.enc_length, List.length_cons]
    omega

lemma unpackF32s_flatMap (samples : List F32) :
    unpackF32s (samples.flatMap F32.enc) = samples.map F32.val := by
  induction samples with
  | nil => rfl
  | cons f fs ih =>
    rw [List.flatMap_cons, List.map_cons, ← ih]
    show unpackF32s (f.word % 2 ^ 8 :: f.word / 2 ^ 8 % 2 ^ 8 ::
      f.word / 2 ^ 16 % 2 ^ 8 :: f.word / 2 ^ 24 % 2 ^ 8 :: fs.flatMap F32.enc) = _
    rw [unpackF32s]
    rw [show decodeF32 (leWord [f.word % 2 ^ 8, f.word / 2 ^ 8 % 2 ^ 8,
      f.word / 2 ^ 16 % 2 ^ 8, f.word / 2 ^ 24 % 2 ^ 8]) = f.val from decodeF32_enc f]

/-- C3: Decode round-trip on a synthetic buffer: the eleven header
scalars are read as little-endian binary32 values from their fixed
offsets (init_E at 845, final_E at 849, high_E at 853, low_E at 857,
scan_rate at 861, polarity at 869, num_segments at 873, sample_interval
at 877, sensitivity at 885, quiet_time at 889); the four potential limits
are rounded to 3 decimals, scan_rate and sample_interval to 5,
sensitivity and quiet_time left unrounded; polarity 1 maps to
`(1, Positive)` and 0 to `(-1, Negative)`; and the sample floats from
offset 1445 onward are returned exactly and in order. -/
theorem decode_extracts_header_and_samples (pad u1 u2 pad2 : List ℕ)
    (hpad : pad.length = 845) (hu1 : u1.length = 4) (hu2 : u2.length = 4)
    (hpad2 : pad2.length = 552)
    (init finalE high low rate polarity nseg interval sens quiet : F32)
    (samples : List F32)
    (hpol : polarity.val = 0 ∨ polarity.val = 1) :
    getParameters (mkBinBuffer pad u1 u2 pad2 init finalE high low rate polarity
        nseg interval sens quiet samples) =
      .ok { init_E := pyRound init.val 3
            final_E := pyRound finalE.val 3
            high_E := pyRound high.val 3
            low_E := pyRound low.val 3
            scan_rate := pyRound rate.val 5
            init_sweep_direction :=
              if polarity.val = 1 then (1, "Positive") else (-1, "Negative")
            num_segments := ratTrunc nseg.val
            sample_interval := pyRound interval.val 5
            sensitivity := sens.val
            quiet_time := quiet.val } ∧
    unpackData (mkBinBuffer pad u1 u2 pad2 init finalE high low rate polarity
        nseg interval sens quiet samples) = .ok (samples.map F32.val) := by
  set b := mkBinBuffer pad u1 u2 pad2 init finalE high low rate polarity
    nseg interval sens quiet samples with hb
  have d845 : b.drop 845 = init.enc ++ (finalE.enc ++ (high.enc ++ (low.enc ++
      (rate.enc ++ (u1 ++ (polarity.enc ++ (nseg.enc ++ (interval.enc ++
        (u2 ++ (sens.enc ++ (quiet.enc ++ (pad2 ++ samples.flatMap F32.enc)))))))))))) := by
    rw [hb, mkBinBuffer]; exact List.drop_left' hpad
  have d849 : b.drop 849 = finalE.enc ++ (high.enc ++ (low.enc ++
      (rate.enc ++ (u1 ++ (polarity.enc ++ (nseg.enc ++ (interval.enc ++
        (u2 ++ (sens.enc ++ (quiet.enc ++ (pad2 ++ samples.flatMap F32.enc))))))))))) := by
    rw [show (849 : ℕ) = 845 + 4 from rfl, ← List.drop_drop, d845]
    exact List.drop_left' (F32.enc_length init)
  have d853 : b.drop 853 = high.enc ++ (low.enc ++
      (rate.enc ++ (u1 ++ (polarity.enc ++ (nseg.enc ++ (interval.enc ++
        (u2 ++ (sens.enc ++ (quiet.enc ++ (pad2 ++ samples.flatMap F32.enc)))))))))) := by
    rw [show (853 : ℕ) = 849 + 4 from rfl, ← List.drop_drop, d849]
    exact List.drop_left' (F32.enc_length finalE)
  have d857 : b.drop 857 = low.enc ++
      (rate.enc ++ (u1 ++ (polarity.enc ++ (nseg.enc ++ (interval.enc ++
        (u2 ++ (sens.enc ++ (quiet.enc ++ (pad2 ++ samples.flatMap F32.enc))))))))) := by
    rw [show (857 : ℕ) = 853 + 4 from rfl, ← List.drop_drop, d853]
    exact List.drop_left' (F32.enc_length high)
  have d861 : b.drop 861 = rate.enc ++ (u1 ++ (polarity.enc ++ (nseg.enc ++
      (interval.enc ++ (u2 ++ (sens.enc ++ (quiet.enc ++
        (pad2 ++ samples.flatMap F32.enc)))))))) := by
    rw [show (861 : ℕ) = 857 + 4 from rfl, ← List.drop_drop, d857]
    exact List.drop_left' (F32.enc_length low)
  have d865 : b.drop 865 = u1 ++ (polarity.enc ++ (nseg.enc ++
      (interval.enc ++ (u2 ++ (sens.enc ++ (quiet.enc ++
        (pad2 ++ samples.flatMap F32.enc))))))) := by
    rw [show (865 : ℕ) = 861 + 4 from rfl, ← List.drop_drop, d861]
    exact List.drop_left' (F32.enc_length rate)
  have d869 : b.drop 869 = polarity.enc ++ (nseg.enc ++
      (interval.enc ++ (u2 ++ (sens.enc ++ (quiet.enc ++
        (pad2 ++ samples.flatMap F32.enc)))))) := by
    rw [show (869 : ℕ) = 865 + 4 from rfl, ← List.drop_drop, d865]
    exact List.drop_left' hu1
  have d873 : b.drop 873 = nseg.enc ++ (interval.enc ++ (u2 ++ (sens.enc ++
      (quiet.enc ++ (pad2 ++ samples.flatMap F32.enc))))) := by
    rw [show (873 : ℕ) = 869 + 4 from rfl, ← List.drop_drop, d869]
    exact List.drop_left' (F32.enc_length polarity)
  have d877 : b.drop 877 = interval.enc ++ (u2 ++ (sens.enc ++
      (quiet.enc ++ (pad2 ++ samples.flatMap F32.enc)))) := by
    rw [show (877 : ℕ) = 873 + 4 from rfl, ← List.drop_drop, d873]
    exact List.drop_left' (F32.enc_length nseg)
  have d881 : b.drop 881 = u2 ++ (sens.enc ++ (quiet.enc ++
      (pad2 ++ samples.flatMap F32.enc))) := by
    rw [show (881 : ℕ) = 877 + 4 from rfl, ← List.drop_drop, d877]
    exact List.drop_left' (F32.enc_length interval)
  have d885 : b.drop 885 = sens.enc ++ (quiet.enc ++
      (pad2 ++ samples.flatMap F32.enc)) := by
    rw [show (885 : ℕ) = 881 + 4 from rfl, ← List.drop_drop, d881]
    exact List.drop_left' hu2
  have d889 : b.drop 889 = quiet.enc ++ (pad2 ++ samples.flatMap F32.enc) := by
    rw [show (889 : ℕ) = 885 + 4 from rfl, ← List.drop_drop, d885]
    exact List.drop_left' (F32.enc_length sens)
  have d893 : b.drop 893 = pad2 ++ samples.flatMap F32.enc := by
    rw [show (893 : ℕ) = 889 + 4 from rfl, ← List.drop_drop, d889]
    exact List.drop_left' (F32.enc_length quiet)
  have d1445 : b.drop 1445 = samples.flatMap F32.enc := by
    rw [show (1445 : ℕ) = 893 + 552 from rfl, ← List.drop_drop, d893]
    exact List.drop_left' hpad2
  have f845 : fieldF32 b 845 = init.val := by
    rw [fieldF32, extract4, d845, List.take_left' (F32.enc_length init), decodeF32_enc]
  have f849 : fieldF32 b 849 = finalE.val := by
    rw [fieldF32, extract4, d849, List.take_left' (F32.enc_length finalE), decodeF32_enc]
  have f853 : fieldF32 b 853 = high.val := by
    rw [fieldF32, extract4, d853, List.take_left' (F32.enc_length high), decodeF32_enc]
  have f857 : fieldF32 b 857 = low.val := by
    rw [fieldF32, extract4, d857, List.take_left' (F32.enc_length low), decodeF32_enc]
  have f861 : fieldF32 b 861 = rate.val := by
    rw [fieldF32, extract4, d861, List.take_left' (F32.enc_length rate), decodeF32_enc]
  have f869 : fieldF32 b 869 = polarity.val := by
    rw [fieldF32, extract4, d869, List.take_left' (F32.enc_length polarity), decodeF32_enc]
  have f873 : fieldF32 b 873 = nseg.val := by
    rw [fieldF32, extract4, d873, List.take_left' (F32.enc_length nseg), decodeF32_enc]
  have f877 : fieldF32 b 877 = interval.val := by
    rw [fieldF32, extract4, d877, List.take_left' (F32.enc_length interval), decodeF32_enc]
  have f885 : fieldF32 b 885 = sens.val := by
    rw [fieldF32, extract4, d885, List.take_left' (F32.enc_length sens), decodeF32_enc]
  have f889 : fieldF32 b 889 = quiet.val := by
    rw [fieldF32, extract4, d889, List.take_left' (F32.enc_length quiet), decodeF32_enc]
  have hblen : b.length = 1445 + 4 * samples.length := by
    rw [hb, mkBinBuffer]
    simp only [List.length_append, hpad, hu1, hu2, hpad2, F32.enc_length,
      flatMap_enc_length]
    omega
  have hlen : ¬ b.length < 893 := by omega
  constructor
  · rw [getParameters, if_neg hlen, f869, f845, f849, f853, f857, f861, f873,
      f877, f885, f889]
    rcases hpol with hpol | hpol
    · have h0 : ratTrunc (0 : ℚ) = 0 := by decide
      rw [hpol, h0]
      norm_num
    · have h1 : ratTrunc (1 : ℚ) = 1 := by decide
      rw [hpol, h1]
      norm_num
  · rw [unpackData]
    simp only [d1445, flatMap_enc_length]
    norm_num
    exact unpackF32s_flatMap samples

/-! ## Concrete inputs used by the witnesses -/

/-- Zero bytes filling the 845 positions before the header fields. -/
def wPad : List ℕ := List.replicate 845 0

/-- One unknown/unused 4-byte header region. -/
def wU : List ℕ := [0, 0, 0, 0]

/-- The 552 zero bytes between the header and the sample region. -/
def wPad2 : List ℕ := List.replicate 552 0

/-- binary32 `0.5`. -/
def wHalf : F32 := ⟨false, 126, 0, by norm_num, by norm_num⟩

/-- binary32 `1.0`. -/
def wOne : F32 := ⟨false, 127, 0, by norm_num, by norm_num⟩

/-- binary32 `-0.5`. -/
def wNegHalf : F32 := ⟨true, 126, 0, by norm_num, by norm_num⟩

/-- binary32 `0.0625`. -/
def wSixteenth : F32 := ⟨false, 123, 0, by norm_num, by norm_num⟩

/-- binary32 `4.0`. -/
def wFour : F32 := ⟨false, 129, 0, by norm_num, by norm_num⟩

/-- binary32 `0.0`. -/
def wZero : F32 := ⟨false, 0, 0, by norm_num, by norm_num⟩

/-- Two sample records: `1.0` and `-0.5`. -/
def wSamples : List F32 := [wOne, wNegHalf]

theorem decode_extracts_header_and_samples_witness :
    (wPad.length = 845 ∧ wU.length = 4 ∧ wPad2.length = 552 ∧
      (wOne.val = 0 ∨ wOne.val = 1)) ∧
    (getParameters (mkBinBuffer wPad wU wU wPad2 wHalf wOne wOne wNegHalf
        wSixteenth wOne wFour wSixteenth wOne wZero wSamples) =
      .ok { init_E := pyRound wHalf.val 3
            final_E := pyRound wOne.val 3
            high_E := pyRound wOne.val 3
            low_E := pyRound wNegHalf.val 3
            scan_rate := pyRound wSixteenth.val 5
            init_sweep_direction :=
              if wOne.val = 1 then (1, "Positive") else (-1, "Negative")
            num_segments := ratTrunc wFour.val
            sample_interval := pyRound wSixteenth.val 5
            sensitivity := wOne.val
            quiet_time := wZero.val } ∧
      unpackData (mkBinBuffer wPad wU wU wPad2 wHalf wOne wOne wNegHalf
        wSixteenth wOne wFour wSixteenth wOne wZero wSamples) =
        .ok (wSamples.map F32.val)) :=
  ⟨⟨by simp [wPad], by simp [wU], by simp [wPad2],
      Or.inr (by norm_num [wOne, F32.val])⟩,
    decode_extracts_header_and_samples wPad wU wU wPad2
      (by simp [wPad]) (by simp [wU]) (by simp [wU]) (by simp [wPad2])
      wHalf wOne wOne wNegHalf wSixteenth wOne wFour wSixteenth wOne wZero
      wSamples (Or.inr (by norm_num [wOne, F32.val]))⟩

/-! ## Failure conditions of the decoder -/

/-- The biased-exponent field of the float stored at byte offset `a`
(255 marks an infinity or NaN, which the rational model cannot carry). -/
def fieldExp (b : List ℕ) (a : ℕ) : ℕ :=
  leWord (extract4 b a) / 2 ^ 23 % 2 ^ 8

instance {ε α : Type} [DecidableEq ε] [DecidableEq α] : DecidableEq (Except ε α) :=
  fun a b =>
    match a, b with
    | .error e, .error f =>
      if h : e = f then isTrue (by rw [h])
      else isFalse (by intro hc; cases hc; exact h rfl)
    | .ok x, .ok y =>
      if h : x = y then isTrue (by rw [h])
      else isFalse (by intro hc; cases hc; exact h rfl)
    | .error _, .ok _ => isFalse (by intro hc; cases hc)
    | .ok _, .error _ => isFalse (by intro hc; cases hc)

lemma parseBinFile_gp_error (b : List ℕ) (e : PyErr)
    (h : getParameters b = .error e) : parseBinFile b = .error e := by
  rw [parseBinFile, h]
  rfl

lemma parseBinFile_ud_error (b : List ℕ) (p : Parameters) (e : PyErr)
    (hp : getParameters b = .ok p) (h : unpackData b = .error e) :
    parseBinFile b = .error e := by
  rw [parseBinFile, hp, h]
  rfl

lemma parseBinFile_eq (b : List ℕ) (p : Parameters) (cur : List ℚ)
    (hp : getParameters b = .ok p) (hu : unpackData b = .ok cur) :
    parseBinFile b =
      (buildVoltammogram (buildSegments b.length p).1 cur
        (buildSegments b.length p).2).map (fun v => (v, p)) := by
  rw [parseBinFile, hp, hu]
  rfl

lemma unpackF32s_length_mul : ∀ (n : ℕ) (l : List ℕ),
    l.length = 4 * n → (unpackF32s l).length = n := by
  intro n
  induction n with
  | zero =>
    intro l hl
    have : l = [] := List.eq_nil_of_length_eq_zero (by omega)
    subst this
    rfl
  | succ n ih =>
    intro l hl
    match l with
    | [] => simp at hl
    | [_] => simp at hl; omega
    | [_, _] => simp at hl; omega
    | [_, _, _] => simp at hl; omega
    | b0 :: b1 :: b2 :: b3 :: rest =>
      rw [unpackF32s, List.length_cons, ih rest (by simp at hl; omega)]

lemma decodeF32_zeroWord : decodeF32 0 = 0 := by
  norm_num [decodeF32]

lemma fieldF32_replicate_zero (n a : ℕ) (h : a + 4 ≤ n) :
    fieldF32 (List.replicate n 0) a = 0 := by
  rw [fieldF32, extract4, List.drop_replicate, List.take_replicate]
  have hm : min 4 (n - a) = 4 := by omega
  rw [hm, show leWord (List.replicate 4 0) = 0 from rfl, decodeF32_zeroWord]

/-- The parameter record decoded from an all-zero buffer. -/
def pZeros (n : ℕ) : Parameters :=
  { init_E := pyRound (fieldF32 (List.replicate n 0) 845) 3
    final_E := pyRound (fieldF32 (List.replicate n 0) 849) 3
    high_E := pyRound (fieldF32 (List.replicate n 0) 853) 3
    low_E := pyRound (fieldF32 (List.replicate n 0) 857) 3
    scan_rate := pyRound (fieldF32 (List.replicate n 0) 861) 5
    init_sweep_direction := (-1, "Negative")
    num_segments := ratTrunc (fieldF32 (List.replicate n 0) 873)
    sample_interval := pyRound (fieldF32 (List.replicate n 0) 877) 5
    sensitivity := fieldF32 (List.replicate n 0) 885
    quiet_time := fieldF32 (List.replicate n 0) 889 }

lemma getParameters_replicate_zero (n : ℕ) (h893 : 893 ≤ n) :
    getParameters (List.replicate n 0) = .ok (pZeros n) := by
  have h869 : ratTrunc (fieldF32 (List.replicate n 0) 869) = 0 := by
    rw [fieldF32_replicate_zero n 869 (by omega)]
    decide
  rw [getParameters, if_neg (by simp only [List.length_replicate]; omega), h869]
  norm_num [pZeros]

/-- A buffer whose header region is intact (length 1000 ≥ 897, polarity
flag exactly `1.0`): the claimed "decoding succeeds" is false — the
pipeline raises (`pd.concat` of an empty frame list) because the sample
region at offset 1445 lies beyond the end of this buffer. -/
theorem decode_error_despite_valid_header :
    (List.replicate 869 0 ++ ([0, 0, 128, 63] ++ List.replicate 127 0)).length = 1000 ∧
    ratTrunc (fieldF32 (List.replicate 869 0 ++ ([0, 0, 128, 63] ++ List.replicate 127 0)) 869) = 1 ∧
    parseBinFile (List.replicate 869 0 ++ ([0, 0, 128, 63] ++ List.replicate 127 0)) =
      .error .valueError := by
  set b4 : List ℕ := List.replicate 869 0 ++ ([0, 0, 128, 63] ++ List.replicate 127 0)
    with hb4
  have hlen : b4.length = 1000 := by simp [hb4]
  have hfv : fieldF32 b4 869 = 1 := by
    have hdrop : b4.drop 869 = [0, 0, 128, 63] ++ List.replicate 127 0 := by
      rw [hb4]
      exact List.drop_left' (by simp)
    rw [fieldF32, extract4, hdrop, List.take_left' (by norm_num : ([0, 0, 128, 63] : List ℕ).length = 4)]
    rw [show leWord [0, 0, 128, 63] = 1065353216 from by norm_num [leWord]]
    norm_num [decodeF32]
  have htr : ratTrunc (fieldF32 b4 869) = 1 := by
    rw [hfv]
    decide
  set p4 : Parameters :=
      { init_E := pyRound (fieldF32 b4 845) 3
        final_E := pyRound (fieldF32 b4 849) 3
        high_E := pyRound (fieldF32 b4 853) 3
        low_E := pyRound (fieldF32 b4 857) 3
        scan_rate := pyRound (fieldF32 b4 861) 5
        init_sweep_direction := (1, "Positive")
        num_segments := ratTrunc (fieldF32 b4 873)
        sample_interval := pyRound (fieldF32 b4 877) 5
        sensitivity := fieldF32 b4 885
        quiet_time := fieldF32 b4 889 } with hp4
  have hgp : getParameters b4 = .ok p4 := by
    rw [getParameters, if_neg (by omega), htr, hp4]
    norm_num
  have hud : unpackData b4 = .ok [] := by
    have : b4.drop 1445 = [] := List.drop_eq_nil_of_le (by omega)
    simp [unpackData, this]
    rfl
  have hiter : iterCount b4.length = 0 := by
    rw [iterCount]
    omega
  have hbs : buildSegments b4.length p4 = ([], [0]) := by
    rw [buildSegments, hiter]
    rfl
  refine ⟨hlen, htr, ?_⟩
  rw [parseBinFile_eq b4 p4 [] hgp hud, hbs]
  rfl

/-- C4 (amended): The decoder of `io/parse_bin.py` never raises a
`FormatError` (no such class exists); with finite polarity and
num_segments float patterns, decoding succeeds exactly when the polarity
flag truncates to 0 or 1, the buffer reaches offset 1449 (at least one
complete sample record — a buffer of 893..1448 bytes fails with
`ValueError` from `pd.concat` of an empty list, not at the claimed
header+4 boundary), and the sample region is a multiple of 4 bytes
(otherwise `struct.iter_unpack` raises `struct.error`); buffers shorter
than 893 bytes fail with `struct.error` in header unpacking. -/
theorem decode_success_characterization (b : List ℕ)
    (hpolfin : fieldExp b 869 ≠ 255) (hnumfin : fieldExp b 873 ≠ 255) :
    (∃ r, parseBinFile b = .ok r) ↔
      ((ratTrunc (fieldF32 b 869) = 0 ∨ ratTrunc (fieldF32 b 869) = 1) ∧
        1449 ≤ b.length ∧ (b.length - 1445) % 4 = 0) := by
  constructor
  · rintro ⟨r, hr⟩
    rcases hgp : getParameters b with e | p
    · rw [parseBinFile_gp_error b e hgp] at hr
      cases hr
    rcases hud : unpackData b with e | cur
    · rw [parseBinFile_ud_error b p e hgp hud] at hr
      cases hr
    have hlen : ¬ b.length < 893 := by
      intro hcon
      rw [getParameters, if_pos hcon] at hgp
      cases hgp
    have hpol01 : ratTrunc (fieldF32 b 869) = 0 ∨ ratTrunc (fieldF32 b 869) = 1 := by
      by_contra hcon
      push_neg at hcon
      rw [getParameters, if_neg hlen, if_neg hcon.2, if_neg hcon.1] at hgp
      cases hgp
    have hmod : (b.length - 1445) % 4 = 0 := by
      simp only [unpackData, List.length_drop] at hud
      by_contra hcon
      rw [if_neg hcon] at hud
      cases hud
    refine ⟨hpol01, ?_, hmod⟩
    by_contra hshort
    push_neg at hshort
    have hle : b.length ≤ 1445 := by omega
    have hdropnil : b.drop 1445 = [] := by
      apply List.eq_nil_of_length_eq_zero
      rw [List.length_drop]
      omega
    have hcurnil : cur = [] := by
      simp only [unpackData, hdropnil] at hud
      simp at hud
      exact hud.symm
    have hiter : iterCount b.length = 0 := by
      rw [iterCount]
      omega
    have hbs : buildSegments b.length p = ([], [0]) := by
      rw [buildSegments, hiter]
      rfl
    rw [parseBinFile_eq b p cur hgp hud, hbs, hcurnil] at hr
    have hbv : buildVoltammogram ([] : List ℚ) ([] : List ℚ) [0] =
        .error .valueError := rfl
    rw [hbv] at hr
    cases hr
  · rintro ⟨hpol01, hlen, hmod⟩
    have hlen893 : ¬ b.length < 893 := by omega
    obtain ⟨p, hgp⟩ : ∃ p, getParameters b = .ok p := by
      rcases hpol01 with h | h
      · rw [getParameters, if_neg hlen893, h]
        norm_num
      · rw [getParameters, if_neg hlen893, h]
        norm_num
    have hud : unpackData b = .ok (unpackF32s (b.drop 1445)) := by
      simp only [unpackData, List.length_drop]
      rw [if_pos hmod]
    obtain ⟨n, hn⟩ : ∃ n, b.length - 1445 = 4 * n := by
      refine ⟨(b.length - 1445) / 4, ?_⟩
      omega
    have hcurlen : (unpackF32s (b.drop 1445)).length = n :=
      unpackF32s_length_mul n _ (by rw [List.length_drop]; omega)
    have hiter : iterCount b.length = (unpackF32s (b.drop 1445)).length := by
      rw [iterCount, hcurlen]
      omega
    have hcurne : unpackF32s (b.drop 1445) ≠ [] := by
      intro hcon
      have := congrArg List.length hcon
      rw [hcurlen] at this
      simp at this
      omega
    obtain ⟨segs, hbv, -⟩ :=
      partition_stream_aux p (unpackF32s (b.drop 1445)) b.length hiter hcurne
    refine ⟨(segs, p), ?_⟩
    rw [parseBinFile_eq b p _ hgp hud, hbv]
    rfl

theorem decode_success_characterization_witness :
    (fieldExp (List.replicate 1449 0) 869 ≠ 255 ∧
      fieldExp (List.replicate 1449 0) 873 ≠ 255) ∧
    ((∃ r, parseBinFile (List.replicate 1449 0) = .ok r) ↔
      ((ratTrunc (fieldF32 (List.replicate 1449 0) 869) = 0 ∨
          ratTrunc (fieldF32 (List.replicate 1449 0) 869) = 1) ∧
        1449 ≤ (List.replicate 1449 0 : List ℕ).length ∧
        ((List.replicate 1449 0 : List ℕ).length - 1445) % 4 = 0)) :=
  ⟨⟨by decide, by decide⟩,
    decode_success_characterization (List.replicate 1449 0) (by decide) (by decide)⟩

lemma unpackData_replicate_1446 :
    unpackData (List.replicate 1446 0) = .error .structError := by
  rw [unpackData, List.drop_replicate]
  norm_num

/-- C5 counterexample: a 1446-byte buffer (valid header, one stray
trailing byte after offset 1445): the claim says decoding succeeds and
ignores the byte, but `struct.iter_unpack` raises `struct.error`. -/
theorem trailing_byte_raises_counterexample :
    ((List.replicate 1446 0 : List ℕ).drop 1445).length % 4 ≠ 0 ∧
    parseBinFile (List.replicate 1446 0) = .error .structError := by
  refine ⟨by decide, ?_⟩
  exact parseBinFile_ud_error _ (pZeros 1446) _
    (getParameters_replicate_zero 1446 (by omega)) unpackData_replicate_1446

/-- C5 (amended): Trailing bytes that do not form a complete 4-byte
record are *not* ignored: for a buffer whose header decodes, a sample
region that is not a multiple of 4 bytes makes decoding raise
`struct.error`; when the region is a multiple of 4 bytes, the number of
synthesized potentials equals the number of decoded current samples. -/
theorem trailing_bytes_behavior (b : List ℕ) (p : Parameters)
    (hp : getParameters b = .ok p) :
    ((b.drop 1445).length % 4 ≠ 0 → parseBinFile b = .error .structError) ∧
    (∀ cur, unpackData b = .ok cur →
      (buildSegments b.length p).1.length = cur.length) := by
  constructor
  · intro hmod
    have hud : unpackData b = .error .structError := by
      simp only [unpackData]
      rw [if_neg hmod]
    exact parseBinFile_ud_error b p _ hp hud
  · intro cur hud
    simp only [unpackData, List.length_drop] at hud
    by_cases hmod : (b.length - 1445) % 4 = 0
    · rw [if_pos hmod] at hud
      obtain ⟨n, hn⟩ : ∃ n, b.length - 1445 = 4 * n :=
        ⟨(b.length - 1445) / 4, by omega⟩
      have hcur : cur = unpackF32s (b.drop 1445) := by
        cases hud
        rfl
      have hcurlen : cur.length = n := by
        rw [hcur]
        exact unpackF32s_length_mul n _ (by rw [List.length_drop]; omega)
      rw [buildSegments]
      dsimp only
      rw [walk_pot_length]
      simp only [List.length_nil, Nat.zero_add]
      rw [hcurlen, iterCount]
      omega
    · rw [if_neg hmod] at hud
      cases hud

theorem trailing_bytes_behavior_witness :
    (getParameters (List.replicate 1446 0) = .ok (pZeros 1446)) ∧
    ((((List.replicate 1446 0 : List ℕ)).drop 1445).length % 4 ≠ 0 →
      parseBinFile (List.replicate 1446 0) = .error .structError) ∧
    (∀ cur, unpackData (List.replicate 1446 0) = .ok cur →
      (buildSegments (List.replicate 1446 0 : List ℕ).length (pZeros 1446)).1.length =
        cur.length) :=
  ⟨getParameters_replicate_zero 1446 (by omega),
    trailing_bytes_behavior (List.replicate 1446 0) (pZeros 1446)
      (getParameters_replicate_zero 1446 (by omega))⟩

/-- C6 (code bug): A buffer with a fully valid 893-byte header but an
empty sample region (1445 bytes): the specified behavior is "zero
segments, no crash", but `_build_voltammogram` hands `pd.concat` an empty
list of frames, which raises `ValueError`. -/
theorem empty_stream_crashes :
    parseBinFile (List.replicate 1445 0) = .error .valueError := by
  have hgp := getParameters_replicate_zero 1445 (by omega)
  have hud : unpackData (List.replicate 1445 0) = .ok [] := by
    rw [unpackData, List.drop_replicate]
    norm_num
    rfl
  have hbs : buildSegments (List.replicate 1445 0 : List ℕ).length (pZeros 1445) =
      ([], [0]) := by
    rw [List.length_replicate, buildSegments, show iterCount 1445 = 0 from by decide]
    rfl
  rw [parseBinFile_eq _ _ [] hgp hud, hbs]
  rfl

/-! ## Rounding evaluation helpers -/

lemma int_fdiv_one (k : ℤ) : Int.fdiv k 1 = k := by
  rcases k with m | m
  · cases m with
    | zero => rfl
    | succ m =>
      show Int.ofNat ((m + 1) / 1) = Int.ofNat (m + 1)
      rw [Nat.div_one]
  · show Int.negSucc (m / 1) = Int.negSucc m
    rw [Nat.div_one]

lemma ratFloor_intCast (k : ℤ) : ratFloor (k : ℚ) = k := by
  rw [ratFloor, Rat.num_intCast, Rat.den_intCast]
  rw [Nat.cast_one, int_fdiv_one]

lemma roundHalfEven_intCast (k : ℤ) : roundHalfEven (k : ℚ) = k := by
  simp only [roundHalfEven, ratFloor_intCast]
  norm_num

/-- `round(q, n)` is the identity on values that are already exact
multiples of `10^-n`. -/
lemma pyRound_eq_self_of_int (q : ℚ) (n : ℕ) (k : ℤ) (h : q * 10 ^ n = (k : ℚ)) :
    pyRound q n = q := by
  rw [pyRound, h, roundHalfEven_intCast, ← h,
    mul_div_cancel_right₀ q (by positivity : (10 : ℚ) ^ n ≠ 0)]

lemma pyRound_zero (n : ℕ) : pyRound 0 n = 0 :=
  pyRound_eq_self_of_int 0 n 0 (by norm_num)

/-! ## The trim contract -/

lemma pySlice_isInfix {α : Type} (l : List α) (a b : ℕ) : pySlice l a b <:+: l := by
  refine ⟨l.take a, (l.drop a).drop (b - a), ?_⟩
  rw [pySlice, List.append_assoc, List.take_append_drop, List.take_append_drop]

/-- C7: `trim(start, end)` clamps `start` to a minimum of 1 and `end`
to the segment count (when `end = -1` or `end ≥ count`), fails with
`InvalidRangeError` exactly when the clamped `start` exceeds the clamped
`end`, and otherwise returns the 1-based inclusive subrange, sharing the
original segment objects (the result is a contiguous sublist); in
particular `trim(0, 5)` on 3 segments yields all three, `trim(5, 2)` is
an `InvalidRangeError`, and `trim(1, -1)` resolves `end` to the count. -/
theorem trim_clamps_and_validates {α : Type} (segs : List α) (s e : ℤ) :
    (trim segs s e = .error .invalidRange ↔
      (if e = -1 ∨ (segs.length : ℤ) ≤ e then (segs.length : ℤ) else e) < max s 1) ∧
    (∀ out, trim segs s e = .ok out →
      out = pySlice segs (max s 1 - 1).toNat
          (if e = -1 ∨ (segs.length : ℤ) ≤ e then (segs.length : ℤ) else e).toNat ∧
        out <:+: segs) ∧
    trim ([10, 20, 30] : List ℕ) 0 5 = .ok [10, 20, 30] ∧
    trim ([10, 20, 30] : List ℕ) 5 2 = .error .invalidRange ∧
    trim ([10, 20, 30] : List ℕ) 1 (-1) = .ok [10, 20, 30] := by
  refine ⟨?_, ?_, by decide, by decide, by decide⟩
  · simp only [trim]
    constructor
    · intro h
      by_contra hcon
      rw [if_neg hcon] at h
      cases h
    · intro h
      rw [if_pos h]
  · intro out h
    simp only [trim] at h
    split at h
    · rename_i hend
      split at h
      · cases h
      · cases h
        exact ⟨by rw [if_pos hend], pySlice_isInfix segs _ _⟩
    · rename_i hend
      split at h
      · cases h
      · cases h
        exact ⟨by rw [if_neg hend], pySlice_isInfix segs _ _⟩

theorem trim_clamps_and_validates_witness :
    (trim ([10, 20, 30] : List ℕ) 0 5 = .error .invalidRange ↔
      (if (5:ℤ) = -1 ∨ (([10, 20, 30] : List ℕ).length : ℤ) ≤ 5
        then (([10, 20, 30] : List ℕ).length : ℤ) else 5) < max (0:ℤ) 1) ∧
    (∀ out, trim ([10, 20, 30] : List ℕ) 0 5 = .ok out →
      out = pySlice ([10, 20, 30] : List ℕ) (max (0:ℤ) 1 - 1).toNat
          (if (5:ℤ) = -1 ∨ (([10, 20, 30] : List ℕ).length : ℤ) ≤ 5
            then (([10, 20, 30] : List ℕ).length : ℤ) else 5).toNat ∧
        out <:+: ([10, 20, 30] : List ℕ)) ∧
    trim ([10, 20, 30] : List ℕ) 0 5 = .ok [10, 20, 30] ∧
    trim ([10, 20, 30] : List ℕ) 5 2 = .error .invalidRange ∧
    trim ([10, 20, 30] : List ℕ) 1 (-1) = .ok [10, 20, 30] :=
  trim_clamps_and_validates ([10, 20, 30] : List ℕ) 0 5

/-! ## apply_correction -/

/-- C9: `apply_correction(reference)` maps every potential of the
`processed` series to `round(potential - reference, 3)` while leaving
`raw` untouched for every reference value; with `reference = 0` the
`processed` series is numerically unchanged whenever its potentials are
already at 3-decimal resolution. -/
theorem apply_correction_contract (s : Segment) (reference : ℚ)
    (hgrid : ∀ r ∈ s.processed, pyRound r.1 3 = r.1) :
    (s.applyCorrection reference).raw = s.raw ∧
    (s.applyCorrection reference).processed =
      s.processed.map (fun r => (pyRound (r.1 - reference) 3, r.2)) ∧
    (s.applyCorrection 0).processed = s.processed := by
  refine ⟨rfl, rfl, ?_⟩
  show s.processed.map (fun r => (pyRound (r.1 - 0) 3, r.2)) = s.processed
  have : ∀ r ∈ s.processed, (fun r : ℚ × ℚ => (pyRound (r.1 - 0) 3, r.2)) r = id r := by
    intro r hr
    simp only [sub_zero, id]
    rw [hgrid r hr]
  rw [List.map_congr_left this, List.map_id]

/-- A one-row segment whose potential sits on the 3-decimal grid. -/
def wSeg : Segment :=
  { index := 0, raw := [((0:ℚ), (5:ℚ))], processed := [((0:ℚ), (5:ℚ))],
    peaks := [], ehalfs := [], peak_separations := [] }

lemma wSeg_grid : ∀ r ∈ wSeg.processed, pyRound r.1 3 = r.1 := by
  intro r hr
  simp only [wSeg, List.mem_singleton] at hr
  subst hr
  exact pyRound_zero 3

theorem apply_correction_contract_witness :
    (∀ r ∈ wSeg.processed, pyRound r.1 3 = r.1) ∧
    ((wSeg.applyCorrection (1/4)).raw = wSeg.raw ∧
      (wSeg.applyCorrection (1/4)).processed =
        wSeg.processed.map (fun r => (pyRound (r.1 - 1/4) 3, r.2)) ∧
      (wSeg.applyCorrection 0).processed = wSeg.processed) :=
  ⟨wSeg_grid, apply_correction_contract wSeg (1/4) wSeg_grid⟩

/-! ## Shared mutable default arguments of Segment.__init__ -/

/-- C10 (code bug): Two `Segment` objects constructed without explicit
list arguments share the *same* default `ehalfs` (and `peak_separations`,
and `peaks`) list object, because Python evaluates default-argument
expressions once at function-definition time: appending through the first
object's `ehalfs` is visible through the second object's `ehalfs`,
refuting the claimed disjointness. -/
theorem segment_default_lists_shared :
    (mkSegmentObjDefault 0 [((0:ℚ), (1:ℚ))]).ehalfs =
      (mkSegmentObjDefault 1 [((0:ℚ), (2:ℚ))]).ehalfs ∧
    (segmentDefaultsStore.push (mkSegmentObjDefault 0 [((0:ℚ), (1:ℚ))]).ehalfs 5).read
        (mkSegmentObjDefault 1 [((0:ℚ), (2:ℚ))]).ehalfs = [5] ∧
    ([5] : List ℚ) ≠ [] := by
  refine ⟨rfl, by decide, by decide⟩

/-! ## The pipeline's effect on E1/2 lists and peak separations -/

lemma veInner_eq_fmpInner (L : ℚ) (a : ℚ × ℚ) (acc : List ℚ × List ℚ)
    (b : ℚ × ℚ) : veInner L a acc b = fmpInner L a acc b := by
  simp only [veInner, fmpInner, calculateEHalf]
  have harg : 1/2 * (a.1 - b.1) + b.1 = 1/2 * (a.1 + b.1) := by ring
  rw [harg]

/-- `find_Ehalfs`'s inner double loop is the peak matcher of `ehalf.py`
run on the reference-shifted peak coordinates. -/
lemma voltSegmentEhalfs_eq_matcher (seg nxt : List (ℚ × ℚ))
    (pA pB : List ℕ) (ref L : ℚ) :
    voltSegmentEhalfs seg nxt pA pB ref L =
      findMatchingPeaks (peakCoords seg pA ref) (peakCoords nxt pB ref) L := by
  rw [voltSegmentEhalfs, findMatchingPeaks, peakCoords, peakCoords, List.foldl_map]
  congr 1
  funext acc pa
  rw [List.foldl_map]
  congr 1
  funext acc2 pb
  exact veInner_eq_fmpInner L _ acc2 _

/-- One segment pair of `find_Ehalfs`, characterized by the accepted-pair
predicate: E1/2 values and separations in discovery order. -/
lemma voltSegmentEhalfs_spec (seg nxt : List (ℚ × ℚ)) (pA pB : List ℕ)
    (ref L : ℚ) :
    voltSegmentEhalfs seg nxt pA pB ref L =
      ((acceptedPairs (peakCoords seg pA ref) (peakCoords nxt pB ref) L).map
          (fun p => calculateEHalf p.1.1 p.2.1),
       (acceptedPairs (peakCoords seg pA ref) (peakCoords nxt pB ref) L).map
          (fun p => |p.1.1 - p.2.1|)) := by
  rw [voltSegmentEhalfs_eq_matcher, findMatchingPeaks]
  simpa using findMatchingPeaks_foldl L (peakCoords nxt pB ref)
    (peakCoords seg pA ref) ([], [])

lemma unzip_map_pair {α β γ : Type} (l : List α) (f : α → β) (g : α → γ) :
    (l.map (fun x => (f x, g x))).unzip = (l.map f, l.map g) := by
  induction l with
  | nil => rfl
  | cons x xs ih => simp [ih]

/-- C8 (amended): After the full pipeline (`find_Ehalfs` followed by
`_print_E_halfs`), each segment pair's `E_halfs` list is the *descending
sort* of the accepted pairs' E1/2 values — `_print_E_halfs` sorts the
stored list in place — while `peak_separations` keeps the discovery
order (ascending first-segment peak index, then ascending second-segment
peak index, no deduplication); the two are parallel only when the
discovery order was already descending. -/
theorem pipeline_sorts_ehalfs_and_keeps_separations
    (segments : List (List (ℚ × ℚ))) (peaks : List (List ℕ))
    (reference peak_sep_limit : ℚ) :
    processEhalfs segments peaks reference peak_sep_limit =
      ((List.range (segments.length - 1)).map (fun i =>
        pySortDesc ((acceptedPairs
            (peakCoords (segments.getD i []) (peaks.getD i []) reference)
            (peakCoords (segments.getD (i + 1) []) (peaks.getD (i + 1) []) reference)
            peak_sep_limit).map (fun p => calculateEHalf p.1.1 p.2.1))),
       (List.range (segments.length - 1)).map (fun i =>
        (acceptedPairs
            (peakCoords (segments.getD i []) (peaks.getD i []) reference)
            (peakCoords (segments.getD (i + 1) []) (peaks.getD (i + 1) []) reference)
            peak_sep_limit).map (fun p => |p.1.1 - p.2.1|))) := by
  simp only [processEhalfs, voltFindEhalfs, printEHalfsEffect, voltSegmentEhalfs_spec,
    unzip_map_pair, List.map_map]
  rfl

/-- First segment of the C8 counterexample: peaks at (0, 5) and (0.3, 4). -/
def cSegA : List (ℚ × ℚ) := [(0, 5), (3/10, 4)]

/-- Second segment of the C8 counterexample: peaks at (0.1, 1) and (0.5, 2). -/
def cSegB : List (ℚ × ℚ) := [(1/10, 1), (1/2, 2)]

/-- Both peaks of each segment. -/
def cPeaks : List (List ℕ) := [[0, 1], [0, 1]]

/-- C8 counterexample: with two accepted pairs whose E1/2 values arise
in ascending discovery order (0.05 then 0.4, separations 0.1 then 0.2),
the pipeline's in-place descending sort reorders `E_halfs` to
`[0.4, 0.05]` while `peak_separations` stays `[0.1, 0.2]`: the accepted
pairs are not retained in discovery order, and the 0th separation (0.1)
no longer belongs to the pair that produced the 0th E1/2 (0.4, whose
separation is 0.2). -/
theorem pipeline_breaks_pair_parallelism :
    voltFindEhalfs [cSegA, cSegB] cPeaks 0 (1/5) = ([[1/20, 2/5]], [[1/10, 1/5]]) ∧
    processEhalfs [cSegA, cSegB] cPeaks 0 (1/5) = ([[2/5, 1/20]], [[1/10, 1/5]]) ∧
    ([[2/5, 1/20]] : List (List ℚ)) ≠ [[1/20, 2/5]] := by
  have hA : peakCoords cSegA [0, 1] 0 = [(0, 5), (3/10, 4)] := by
    simp [peakCoords, rowAt, cSegA]
  have hB : peakCoords cSegB [0, 1] 0 = [(1/10, 1), (1/2, 2)] := by
    simp [peakCoords, rowAt, cSegB]
  have hacc : acceptedPairs [((0:ℚ), (5:ℚ)), (3/10, 4)]
      [((1/10:ℚ), (1:ℚ)), (1/2, 2)] (1/5) =
      [((0, 5), (1/10, 1)), ((3/10, 4), (1/2, 2))] := by
    simp only [acceptedPairs, List.flatMap_cons, List.flatMap_nil, List.filter_cons,
      List.filter_nil]
    norm_num [pairAccepted, isValidPeakPair]
    rw [show |(1:ℚ)/10| = 1/10 from abs_of_nonneg (by norm_num),
      show |(1:ℚ)/2| = 1/2 from abs_of_nonneg (by norm_num),
      show |(1:ℚ)/5| = 1/5 from abs_of_nonneg (by norm_num)]
    norm_num
  have he1 : calculateEHalf (0:ℚ) (1/10) = 1/20 := by
    rw [calculateEHalf, show (1/2 : ℚ) * (0 + 1/10) = 1/20 from by norm_num]
    exact pyRound_eq_self_of_int _ _ 5 (by norm_num)
  have he2 : calculateEHalf (3/10 : ℚ) (1/2) = 2/5 := by
    rw [calculateEHalf, show (1/2 : ℚ) * (3/10 + 1/2) = 2/5 from by norm_num]
    exact pyRound_eq_self_of_int _ _ 40 (by norm_num)
  have hseg : voltSegmentEhalfs cSegA cSegB [0, 1] [0, 1] 0 (1/5) =
      ([1/20, 2/5], [1/10, 1/5]) := by
    rw [voltSegmentEhalfs_spec, hA, hB, hacc]
    simp only [List.map_cons, List.map_nil]
    rw [he1, he2]
    norm_num
  have hdisc : voltFindEhalfs [cSegA, cSegB] cPeaks 0 (1/5) =
      ([[1/20, 2/5]], [[1/10, 1/5]]) := by
    rw [voltFindEhalfs,
      show ([cSegA, cSegB] : List (List (ℚ × ℚ))).length - 1 = 1 from rfl,
      show List.range 1 = [0] from rfl]
    simp only [List.map_cons, List.map_nil]
    rw [show ([cSegA, cSegB].getD 0 [] : List (ℚ × ℚ)) = cSegA from rfl,
      show ([cSegA, cSegB].getD (0 + 1) [] : List (ℚ × ℚ)) = cSegB from rfl,
      show (cPeaks.getD 0 [] : List ℕ) = [0, 1] from rfl,
      show (cPeaks.getD (0 + 1) [] : List ℕ) = [0, 1] from rfl, hseg]
    rfl
  refine ⟨hdisc, ?_, by norm_num⟩
  simp only [processEhalfs, hdisc, printEHalfsEffect, List.map_cons, List.map_nil]
  have hsort : pySortDesc [1/20, 2/5] = [2/5, 1/20] := by
    simp only [pySortDesc, List.insertionSort, List.orderedInsert]
    norm_num
  rw [hsort]

/-- All-zero scan parameters with a positive initial sweep direction. -/
def wParams : Parameters :=
  { init_E := 0, final_E := 0, high_E := 0, low_E := 0, scan_rate := 0,
    init_sweep_direction := (1, "Positive"), num_segments := 0,
    sample_interval := 0, sensitivity := 0, quiet_time := 0 }

theorem segments_partition_stream_witness :
    (iterCount 1449 = ([(0:ℚ)] : List ℚ).length ∧ ([(0:ℚ)] : List ℚ) ≠ []) ∧
    (∃ segs, buildVoltammogram (buildSegments 1449 wParams).1 [(0:ℚ)]
        (buildSegments 1449 wParams).2 = .ok segs ∧
      (segs.map Prod.fst).flatten = (buildSegments 1449 wParams).1 ∧
      (segs.map Prod.snd).flatten = [(0:ℚ)] ∧
      (buildSegments 1449 wParams).1.length = ([(0:ℚ)] : List ℚ).length ∧
      (buildSegments 1449 wParams).1.head? = some (pyRound wParams.init_E 3)) :=
  ⟨⟨by decide, by simp⟩,
    segments_partition_stream wParams [(0:ℚ)] 1449 (by decide) (by simp)⟩

end CvPro

